import Mathlib

set_option maxHeartbeats 1000000

/-!
Verification of the streaming fenced-code-block filters of the MetaGPT fork.

Two filter families live in the repository:

* `src/metagpt/utils/streaming_filter.py` — `StreamingRemoveCodeBlockFilter`,
  a character-level automaton with states OUTSIDE, OUTSIDE_CHECKING_TICKS,
  CAPTURING_LANG, INSIDE, INSIDE_CHECKING_TICKS, INSIDE_CHECKING_TRAIL.
  Embedded below with the `rm_` defs.
* `src/metagpt/utils/report.py` — `StreamingRemoveCodeBlockFilter`
  (marker-substring based, `mr_` defs) and `StreamingExtractCodeBlockFilter`
  (marker-substring based with `_match_start` language parsing, `x_` defs).

Strings are embedded as `List Char`; Python `str.find`, slicing and `strip`
are translated to explicit list functions.
-/

/-- The backtick character, written via its code point. -/
def tick : Char := Char.ofNat 96

/-- Constructor-argument shapes for the `lang` parameter of the filters:
a single string, a finite collection of strings, or a value of any other
type (neither a string nor an iterable).  Strings are embedded as `List Char`. -/
inductive LangArg where
  | str : List Char → LangArg
  | strs : List (List Char) → LangArg
  | other : LangArg
deriving DecidableEq

/-- Python `str.lower()` on the embedding. -/
def lowerL (l : List Char) : List Char := l.map Char.toLower

/-- Python `str.strip()` on the embedding: drop whitespace from both ends. -/
def stripL (l : List Char) : List Char :=
  ((l.dropWhile Char.isWhitespace).reverse.dropWhile Char.isWhitespace).reverse

/-- States of the character-level automaton, named exactly as the state
strings of `streaming_filter.py`. -/
inductive FState where
  | OUTSIDE
  | OUTSIDE_CHECKING_TICKS
  | CAPTURING_LANG
  | INSIDE
  | INSIDE_CHECKING_TICKS
  | INSIDE_CHECKING_TRAIL
deriving DecidableEq

/-- Mutable fields of `streaming_filter.StreamingRemoveCodeBlockFilter`. -/
structure RMState where
  state : FState
  buffer : List Char
  active_delimiter_len : Nat
  should_remove : Bool
deriving DecidableEq

/-- `streaming_filter.StreamingRemoveCodeBlockFilter.__init__`: the dispatch
on the `lang` argument.  The `"*"`, `""` and `[]` forms give `none`
(all languages); a string gives its lower-cased singleton; an iterable gives
the lower-cased collection; any other value falls through every branch
without raising, leaving `target_langs` at its initial `None`. -/
def remove_init : LangArg → Except String (Option (List (List Char)))
  | .str s => if s = "*".toList ∨ s = [] then .ok none else .ok (some [lowerL s])
  | .strs ls => if ls.isEmpty then .ok none else .ok (some (ls.map lowerL))
  | .other => .ok none

/-- The `target_langs` field produced by `remove_init`. -/
def remove_targets (a : LangArg) : Option (List (List Char)) :=
  match remove_init a with
  | .ok t => t
  | .error _ => none

/-- `streaming_filter.StreamingRemoveCodeBlockFilter._check_lang`. -/
def check_lang (targets : Option (List (List Char))) (lang : List Char) : Bool :=
  match targets with
  | none => true
  | some ts => ts.contains (lowerL lang)

/-- The freshly-constructed state of the character-level filter. -/
def rm_fresh : RMState :=
  { state := .OUTSIDE, buffer := [], active_delimiter_len := 0, should_remove := false }

/-- The CAPTURING_LANG branch of `filter_chunk`: at a newline the tag is
stripped, `_check_lang` decides `should_remove`, and for an unmatched block
the opening fence, tag and newline are emitted; otherwise the character is
appended to the tag buffer. -/
def step_capturing (targets : Option (List (List Char))) (st : RMState) (c : Char) :
    List Char × RMState :=
  if c = '\n' then
    let sr := check_lang targets (stripL st.buffer)
    ((if sr then [] else List.replicate st.active_delimiter_len tick ++ st.buffer ++ [c]),
     { st with buffer := [], state := .INSIDE, should_remove := sr })
  else
    ([], { st with buffer := st.buffer ++ [c] })

/-- One character of `streaming_filter.StreamingRemoveCodeBlockFilter.filter_chunk`.
The inner `while not processed` loop re-presents the character at most once
(OUTSIDE_CHECKING_TICKS with a run of length ≥ 3 hands it to CAPTURING_LANG),
which is inlined as the call to `step_capturing`. -/
def rm_step (targets : Option (List (List Char))) (st : RMState) (c : Char) :
    List Char × RMState :=
  match st.state with
  | .OUTSIDE =>
    if c = tick then
      ([], { st with state := .OUTSIDE_CHECKING_TICKS, buffer := [tick] })
    else
      ([c], st)
  | .OUTSIDE_CHECKING_TICKS =>
    if c = tick then
      ([], { st with buffer := st.buffer ++ [tick] })
    else if 3 ≤ st.buffer.length then
      step_capturing targets
        { st with active_delimiter_len := st.buffer.length, buffer := [],
                  state := .CAPTURING_LANG } c
    else
      (st.buffer ++ [c], { st with buffer := [], state := .OUTSIDE })
  | .CAPTURING_LANG => step_capturing targets st c
  | .INSIDE =>
    if c = tick then
      ([], { st with state := .INSIDE_CHECKING_TICKS, buffer := [tick] })
    else
      ((if st.should_remove then [] else [c]), st)
  | .INSIDE_CHECKING_TICKS =>
    if c = tick then
      ([], { st with buffer := st.buffer ++ [tick] })
    else if st.active_delimiter_len ≤ st.buffer.length then
      if c = '\n' then
        ((if st.should_remove then [] else st.buffer ++ [c]),
         { state := .OUTSIDE, buffer := [], active_delimiter_len := 0,
           should_remove := false })
      else if c = ' ' ∨ c = '\t' then
        ([], { st with buffer := st.buffer ++ [c], state := .INSIDE_CHECKING_TRAIL })
      else
        ((if st.should_remove then [] else st.buffer ++ [c]),
         { st with buffer := [], state := .INSIDE })
    else
      ((if st.should_remove then [] else st.buffer ++ [c]),
       { st with buffer := [], state := .INSIDE })
  | .INSIDE_CHECKING_TRAIL =>
    if c = '\n' then
      ((if st.should_remove then [] else st.buffer ++ [c]),
       { state := .OUTSIDE, buffer := [], active_delimiter_len := 0,
         should_remove := false })
    else if c = ' ' ∨ c = '\t' then
      ([], { st with buffer := st.buffer ++ [c] })
    else
      ((if st.should_remove then [] else st.buffer ++ [c]),
       { st with buffer := [], state := .INSIDE })

/-- `streaming_filter.StreamingRemoveCodeBlockFilter.filter_chunk`: the
character loop, collecting the emitted output. -/
def rm_filter_chunk (targets : Option (List (List Char))) (st : RMState) :
    List Char → List Char × RMState
  | [] => ([], st)
  | c :: rest =>
    let p := rm_step targets st c
    let q := rm_filter_chunk targets p.2 rest
    (p.1 ++ q.1, q.2)

/-- Modelled from the spec: the character-level `StreamingRemoveCodeBlockFilter`
in `streaming_filter.py` declares no `finalize` method; the end-of-stream
contract is supplied by the spec's flush policy, "flush buffered content if
not currently suppressing, otherwise discard it" (for the Remove policy,
suppressing means being inside a matched block, i.e. `should_remove`). -/
def rm_finalize (st : RMState) : List Char :=
  if st.should_remove then [] else st.buffer

/-- Feed a sequence of chunks to the character-level filter from a fresh
instance, returning the concatenated output and the final state. -/
def rm_feed_all (targets : Option (List (List Char))) (chunks : List (List Char)) :
    List Char × RMState :=
  chunks.foldl
    (fun acc ch =>
      let p := rm_filter_chunk targets acc.2 ch
      (acc.1 ++ p.1, p.2))
    ([], rm_fresh)

/-- Whether `pat` occurs at the head of `s`. -/
def matchesAt : List Char → List Char → Bool
  | [], _ => true
  | _ :: _, [] => false
  | p :: ps, c :: cs => p == c && matchesAt ps cs

/-- Python `s.find(pat)` on lists: index of the leftmost occurrence. -/
def listFind (pat : List Char) : List Char → Option Nat
  | [] => if pat.isEmpty then some 0 else none
  | c :: t => if matchesAt pat (c :: t) then some 0 else (listFind pat t).map (· + 1)

/-- Python `s.find(pat, i)`: leftmost occurrence at index ≥ `i`. -/
def findFrom (pat s : List Char) (i : Nat) : Option Nat :=
  (listFind pat (s.drop i)).map (· + i)

/-- The `` ``` `` marker as a character list. -/
def tickTriple : List Char := [tick, tick, tick]

/-- Length of the line prefix of `l`: characters before the first
`'\r'` or `'\n'`. -/
def lineLen (l : List Char) : Nat :=
  (l.takeWhile (fun c => !(c == '\r' || c == '\n'))).length

/-- State fields of `report.StreamingExtractCodeBlockFilter` (and the
marker-based `report.StreamingRemoveCodeBlockFilter`, which owns the same
two fields). -/
structure XState where
  buffer : List Char
  in_code_block : Bool
deriving DecidableEq

/-- `report.StreamingExtractCodeBlockFilter.__init__`: `""`/`"*"` give
`None`; a string gives its singleton (not lower-cased); otherwise `len(lang)`
is taken — raising `TypeError` for a non-sized argument — and a collection
gives its element set (not lower-cased). -/
def extract_init : LangArg → Except String (Option (List (List Char)))
  | .str s => if s = [] ∨ s = "*".toList then .ok none else .ok (some [s])
  | .strs ls => if ls.length = 0 then .ok none else .ok (some ls)
  | .other => .error "TypeError"

/-- The `allowed_langs` field produced by `extract_init` when it succeeds. -/
def extract_allowed (a : LangArg) : Option (List (List Char)) :=
  match extract_init a with
  | .ok t => t
  | .error _ => none

/-- `report.StreamingExtractCodeBlockFilter._match_start`, fuelled: scan for
the first `` ``` `` whose line remainder (up to `\r`/`\n` or end of buffer),
stripped, is an allowed language; return the fence position and the content
start (past the line terminator when present). -/
def match_start_aux (allowed : Option (List (List Char))) (s : List Char) :
    Nat → Nat → Option (Nat × Nat)
  | _, 0 => none
  | i, fuel + 1 =>
    if i < s.length then
      match findFrom tickTriple s i with
      | none => none
      | some pos =>
        let langStart := pos + 3
        let langEnd := langStart + lineLen (s.drop langStart)
        let lang := stripL ((s.drop langStart).take (langEnd - langStart))
        if (match allowed with
            | none => true
            | some ls => ls.contains lang) then
          let np1 := if (s.drop langEnd).head? = some '\r' then langEnd + 1 else langEnd
          let np2 := if (s.drop np1).head? = some '\n' then np1 + 1 else np1
          some (pos, np2)
        else
          match_start_aux allowed s (pos + 3) fuel
    else none

/-- `_match_start` with enough fuel for its `while i < len(s)` loop. -/
def match_start (allowed : Option (List (List Char))) (s : List Char) :
    Option (Nat × Nat) :=
  match_start_aux allowed s 0 (s.length + 1)

/-- The `while self.buffer` loop of
`report.StreamingExtractCodeBlockFilter.filter_chunk`, fuelled: outside a
block, search for an allowed opening fence (on failure keep only the last
6 characters when longer); inside, emit up to the `` ``` `` end marker, or
emit the whole buffer when no end marker is present yet. -/
def x_loop (allowed : Option (List (List Char))) (st : XState) :
    Nat → List Char × XState
  | 0 => ([], st)
  | fuel + 1 =>
    if st.buffer.isEmpty then ([], st)
    else if st.in_code_block then
      match listFind tickTriple st.buffer with
      | none => (st.buffer, { st with buffer := [] })
      | some endPos =>
        let p := x_loop allowed
          { buffer := st.buffer.drop (endPos + 3), in_code_block := false } fuel
        (st.buffer.take endPos ++ p.1, p.2)
    else
      match match_start allowed st.buffer with
      | none =>
        if 6 < st.buffer.length then
          ([], { st with buffer := st.buffer.drop (st.buffer.length - 6) })
        else ([], st)
      | some r =>
        x_loop allowed { buffer := st.buffer.drop r.2, in_code_block := true } fuel

/-- `report.StreamingExtractCodeBlockFilter.filter_chunk`. -/
def x_filter_chunk (allowed : Option (List (List Char))) (st : XState)
    (chunk : List Char) : List Char × XState :=
  x_loop allowed { st with buffer := st.buffer ++ chunk }
    (st.buffer.length + chunk.length + 1)

/-- `report.StreamingExtractCodeBlockFilter.finalize`. -/
def x_finalize (st : XState) : List Char × XState :=
  ((if st.in_code_block then st.buffer else []), { buffer := [], in_code_block := false })

/-- Feed a sequence of chunks to the extract filter from a fresh instance. -/
def x_feed_all (allowed : Option (List (List Char))) (chunks : List (List Char)) :
    List Char × XState :=
  chunks.foldl
    (fun acc ch =>
      let p := x_filter_chunk allowed acc.2 ch
      (acc.1 ++ p.1, p.2))
    ([], { buffer := [], in_code_block := false })

/-- Outputs of feeding every chunk and then finalizing the extract filter. -/
def x_run (allowed : Option (List (List Char))) (chunks : List (List Char)) : List Char :=
  (x_feed_all allowed chunks).1 ++ (x_finalize (x_feed_all allowed chunks).2).1

/-- State fields of the marker-based `report.StreamingRemoveCodeBlockFilter`. -/
structure MRState where
  buffer : List Char
  in_code_block : Bool
deriving DecidableEq

/-- `report.StreamingRemoveCodeBlockFilter.finalize`: outside a block the
buffer is flushed and cleared; inside a block the empty string is returned
and the buffer kept. -/
def mr_finalize (st : MRState) : List Char × MRState :=
  if st.in_code_block then ([], st) else (st.buffer, { st with buffer := [] })

/-- A run of three consecutive backticks starts `l`. -/
def leadTwoTicks : List Char → Bool
  | a :: b :: _ => a == tick && b == tick
  | _ => false

/-- Whether `l` contains a run of three or more consecutive backticks. -/
def hasTripleTick : List Char → Bool
  | [] => false
  | c :: t => (c == tick && leadTwoTicks t) || hasTripleTick t

/-! ### Helper lemmas about the character-level automaton -/

theorem rm_filter_chunk_append (tg : Option (List (List Char))) (a b : List Char) :
    ∀ st : RMState, rm_filter_chunk tg st (a ++ b)
      = ((rm_filter_chunk tg st a).1
           ++ (rm_filter_chunk tg (rm_filter_chunk tg st a).2 b).1,
         (rm_filter_chunk tg (rm_filter_chunk tg st a).2 b).2) := by
  induction a with
  | nil => intro st; simp [rm_filter_chunk]
  | cons c rest ih => intro st; simp [rm_filter_chunk, ih]

theorem icts_ticks (tg : Option (List (List Char))) (d : Nat) (r : Bool) (j : Nat) :
    ∀ b : List Char,
      rm_filter_chunk tg ⟨.INSIDE_CHECKING_TICKS, b, d, r⟩ (List.replicate j tick)
        = ([], ⟨.INSIDE_CHECKING_TICKS, b ++ List.replicate j tick, d, r⟩) := by
  induction j with
  | zero => intro b; simp [rm_filter_chunk]
  | succ n ih =>
    intro b
    rw [List.replicate_succ]
    simp [rm_filter_chunk, rm_step, ih, List.replicate_succ]

theorem inside_ticks (tg : Option (List (List Char))) (d : Nat) (r : Bool) (k : Nat)
    (h : 1 ≤ k) :
    rm_filter_chunk tg ⟨.INSIDE, [], d, r⟩ (List.replicate k tick)
      = ([], ⟨.INSIDE_CHECKING_TICKS, List.replicate k tick, d, r⟩) := by
  obtain ⟨m, rfl⟩ : ∃ m, k = m + 1 := ⟨k - 1, by omega⟩
  rw [List.replicate_succ]
  simp [rm_filter_chunk, rm_step, icts_ticks, List.replicate_succ]

theorem trail_ws (tg : Option (List (List Char))) (d : Nat) (r : Bool) (ws : List Char)
    (hws : ws.all (fun w => w == ' ' || w == '\t') = true) :
    ∀ b : List Char,
      rm_filter_chunk tg ⟨.INSIDE_CHECKING_TRAIL, b, d, r⟩ ws
        = ([], ⟨.INSIDE_CHECKING_TRAIL, b ++ ws, d, r⟩) := by
  induction ws with
  | nil => intro b; simp [rm_filter_chunk]
  | cons w rest ih =>
    simp only [List.all_cons, Bool.and_eq_true, Bool.or_eq_true, beq_iff_eq] at hws
    obtain ⟨hw, hrest⟩ := hws
    have hwn : w ≠ '\n' := by rcases hw with rfl | rfl <;> decide
    intro b
    simp [rm_filter_chunk, rm_step, hwn, hw, ih hrest]

theorem icts_ws (tg : Option (List (List Char))) (B : List Char) (d : Nat) (r : Bool)
    (w : Char) (ws' : List Char) (hw : w = ' ' ∨ w = '\t')
    (hws' : ws'.all (fun x => x == ' ' || x == '\t') = true) (hB : d ≤ B.length) :
    rm_filter_chunk tg ⟨.INSIDE_CHECKING_TICKS, B, d, r⟩ (w :: ws')
      = ([], ⟨.INSIDE_CHECKING_TRAIL, B ++ w :: ws', d, r⟩) := by
  have hwt : w ≠ tick := by rcases hw with rfl | rfl <;> decide
  have hwn : w ≠ '\n' := by rcases hw with rfl | rfl <;> decide
  simp [rm_filter_chunk, rm_step, hwt, hwn, hw, hB, trail_ws tg d r ws' hws']

theorem icts_close_confirm (tg : Option (List (List Char))) (B ws : List Char)
    (d : Nat) (r : Bool) (hB : d ≤ B.length)
    (hws : ws.all (fun w => w == ' ' || w == '\t') = true) :
    rm_filter_chunk tg ⟨.INSIDE_CHECKING_TICKS, B, d, r⟩ (ws ++ ['\n'])
      = ((if r then [] else B ++ ws ++ ['\n']), ⟨.OUTSIDE, [], 0, false⟩) := by
  cases ws with
  | nil =>
    have ht : ('\n' : Char) ≠ tick := by decide
    simp [rm_filter_chunk, rm_step, ht, hB]
  | cons w ws' =>
    simp only [List.all_cons, Bool.and_eq_true, Bool.or_eq_true, beq_iff_eq] at hws
    obtain ⟨hw, hws'⟩ := hws
    rw [List.cons_append, rm_filter_chunk,
      show rm_step tg ⟨.INSIDE_CHECKING_TICKS, B, d, r⟩ w
        = ([], ⟨.INSIDE_CHECKING_TRAIL, B ++ [w], d, r⟩) from by
        have hwt : w ≠ tick := by rcases hw with rfl | rfl <;> decide
        have hwn : w ≠ '\n' := by rcases hw with rfl | rfl <;> decide
        simp [rm_step, hwt, hwn, hw, hB]]
    rw [rm_filter_chunk_append tg ws' ['\n'], trail_ws tg d r ws' hws']
    simp [rm_filter_chunk, rm_step]

theorem icts_close_reject (tg : Option (List (List Char))) (B ws : List Char)
    (d : Nat) (r : Bool) (c : Char) (hB : d ≤ B.length)
    (hws : ws.all (fun w => w == ' ' || w == '\t') = true)
    (hc1 : c ≠ '\n') (hc2 : c ≠ ' ') (hc3 : c ≠ '\t') (hc4 : c ≠ tick) :
    rm_filter_chunk tg ⟨.INSIDE_CHECKING_TICKS, B, d, r⟩ (ws ++ [c])
      = ((if r then [] else B ++ ws ++ [c]), ⟨.INSIDE, [], d, r⟩) := by
  cases ws with
  | nil =>
    simp [rm_filter_chunk, rm_step, hc1, hc2, hc3, hc4, hB]
  | cons w ws' =>
    simp only [List.all_cons, Bool.and_eq_true, Bool.or_eq_true, beq_iff_eq] at hws
    obtain ⟨hw, hws'⟩ := hws
    rw [List.cons_append, rm_filter_chunk,
      show rm_step tg ⟨.INSIDE_CHECKING_TICKS, B, d, r⟩ w
        = ([], ⟨.INSIDE_CHECKING_TRAIL, B ++ [w], d, r⟩) from by
        have hwt : w ≠ tick := by rcases hw with rfl | rfl <;> decide
        have hwn : w ≠ '\n' := by rcases hw with rfl | rfl <;> decide
        simp [rm_step, hwt, hwn, hw, hB]]
    rw [rm_filter_chunk_append tg ws' [c], trail_ws tg d r ws' hws']
    simp [rm_filter_chunk, rm_step, hc1, hc2, hc3]

theorem hasTripleTick_cons (c : Char) (t : List Char)
    (h : hasTripleTick (c :: t) = false) : hasTripleTick t = false := by
  simp only [hasTripleTick, Bool.or_eq_false_iff] at h
  exact h.2

/-- Invariant carried by the character-level filter over input with no
three-backtick run: the automaton stays in the two outside states with a
pending run of at most two backticks and never suppresses. -/
def outerInv (st : RMState) : Prop :=
  st.should_remove = false ∧
    ((st.state = .OUTSIDE ∧ st.buffer = []) ∨
     (st.state = .OUTSIDE_CHECKING_TICKS ∧ (st.buffer = [tick] ∨ st.buffer = [tick, tick])))

theorem c9_aux (tg : Option (List (List Char))) :
    ∀ (s : List Char) (st : RMState), outerInv st →
      hasTripleTick (st.buffer ++ s) = false →
      (rm_filter_chunk tg st s).1 ++ (rm_filter_chunk tg st s).2.buffer = st.buffer ++ s
        ∧ outerInv (rm_filter_chunk tg st s).2 := by
  intro s
  induction s with
  | nil =>
    intro st hinv _
    refine ⟨by simp [rm_filter_chunk], by simpa [rm_filter_chunk] using hinv⟩
  | cons c rest ih =>
    intro st hinv htr
    obtain ⟨s0, b0, d0, r0⟩ := st
    obtain ⟨hsr, hcase⟩ := hinv
    simp only at hsr
    subst hsr
    by_cases hc : c = tick
    · subst hc
      rcases hcase with ⟨hs, hb⟩ | ⟨hs, hb | hb⟩ <;> simp only at hs hb <;> subst hs <;> subst hb
      · -- OUTSIDE, empty buffer, backtick
        have h' := ih ⟨.OUTSIDE_CHECKING_TICKS, [tick], d0, false⟩
          ⟨rfl, Or.inr ⟨rfl, Or.inl rfl⟩⟩ (by simpa using htr)
        simp only [rm_filter_chunk, rm_step] at h' ⊢
        simp at h' ⊢
        exact h'
      · -- OUTSIDE_CHECKING_TICKS, one backtick, backtick
        have h' := ih ⟨.OUTSIDE_CHECKING_TICKS, [tick, tick], d0, false⟩
          ⟨rfl, Or.inr ⟨rfl, Or.inr rfl⟩⟩ (by simpa using htr)
        simp only [rm_filter_chunk, rm_step] at h' ⊢
        simp at h' ⊢
        exact h'
      · -- OUTSIDE_CHECKING_TICKS, two backticks, backtick: run of three, excluded
        exfalso
        simp [hasTripleTick, leadTwoTicks] at htr
    · rcases hcase with ⟨hs, hb⟩ | ⟨hs, hb | hb⟩ <;> simp only at hs hb <;> subst hs <;> subst hb
      · -- OUTSIDE, ordinary character
        have h' := ih ⟨.OUTSIDE, [], d0, false⟩ ⟨rfl, Or.inl ⟨rfl, rfl⟩⟩
          (by simpa using hasTripleTick_cons c rest (by simpa using htr))
        simp only [rm_filter_chunk, rm_step] at h' ⊢
        simp [hc] at h' ⊢
        exact h'
      · -- OUTSIDE_CHECKING_TICKS with one backtick, run too short
        have h' := ih ⟨.OUTSIDE, [], d0, false⟩ ⟨rfl, Or.inl ⟨rfl, rfl⟩⟩
          (by
            have h1 : hasTripleTick (tick :: c :: rest) = false := by simpa using htr
            exact hasTripleTick_cons c rest (hasTripleTick_cons tick (c :: rest) h1))
        simp only [rm_filter_chunk, rm_step] at h' ⊢
        simp [hc] at h' ⊢
        exact h'
      · -- OUTSIDE_CHECKING_TICKS with two backticks, run too short
        have h' := ih ⟨.OUTSIDE, [], d0, false⟩ ⟨rfl, Or.inl ⟨rfl, rfl⟩⟩
          (by
            have h1 : hasTripleTick (tick :: tick :: c :: rest) = false := by simpa using htr
            exact hasTripleTick_cons c rest
              (hasTripleTick_cons tick (c :: rest)
                (hasTripleTick_cons tick (tick :: c :: rest) h1)))
        simp only [rm_filter_chunk, rm_step] at h' ⊢
        simp [hc] at h' ⊢
        exact h'

/-- State-coherence invariant of the character-level filter: outside a block
no stale per-block data survives, and while checking an opening run the
per-block fields are still at their cleared values. -/
def c10Inv (st : RMState) : Prop :=
  (st.state = .OUTSIDE →
    st.buffer = [] ∧ st.active_delimiter_len = 0 ∧ st.should_remove = false)
  ∧ (st.state = .OUTSIDE_CHECKING_TICKS →
    st.active_delimiter_len = 0 ∧ st.should_remove = false)

theorem rm_step_c10 (tg : Option (List (List Char))) (st : RMState) (c : Char)
    (h : c10Inv st) : c10Inv (rm_step tg st c).2 := by
  obtain ⟨s0, b0, d0, r0⟩ := st
  obtain ⟨h1, h2⟩ := h
  cases s0 <;>
    simp only [rm_step, step_capturing, c10Inv] <;>
    (repeat' split) <;> (try simp_all)

theorem rm_chunk_c10 (tg : Option (List (List Char))) (ch : List Char) :
    ∀ st : RMState, c10Inv st → c10Inv (rm_filter_chunk tg st ch).2 := by
  induction ch with
  | nil => intro st h; simpa [rm_filter_chunk] using h
  | cons c rest ih =>
    intro st h
    simp only [rm_filter_chunk]
    exact ih _ (rm_step_c10 tg st c h)

/-- The final state after a fresh instance has consumed a sequence of chunks. -/
def rm_run_chunks (tg : Option (List (List Char))) (chunks : List (List Char)) : RMState :=
  chunks.foldl (fun st ch => (rm_filter_chunk tg st ch).2) rm_fresh

theorem rm_run_c10 (tg : Option (List (List Char))) (chunks : List (List Char)) :
    c10Inv (rm_run_chunks tg chunks) := by
  have key : ∀ (l : List (List Char)) (st : RMState), c10Inv st →
      c10Inv (l.foldl (fun st ch => (rm_filter_chunk tg st ch).2) st) := by
    intro l
    induction l with
    | nil => intro st h; simpa using h
    | cons a t ih =>
      intro st h
      simp only [List.foldl_cons]
      exact ih _ (rm_chunk_c10 tg a st h)
  exact key chunks rm_fresh ⟨fun _ => ⟨rfl, rfl, rfl⟩, fun _ => ⟨rfl, rfl⟩⟩

/-! ### Claim theorems -/

/-- C1 (evaluation at the failing input): chunk-split invariance fails for
`StreamingExtractCodeBlockFilter`.  With predicate `{"json"}`, the stream
`"```jsonx\nSECRET\n```\n"` fed as one chunk emits nothing (the block is
tagged `jsonx`, which does not match), but fed split as
`"```json"` / `"x\nSECRET\n```\n"` it emits `"x\nSECRET\n"`:
`_match_start` treats the end of the buffer as the tag-line terminator, so
the truncated tag `json` of the first chunk is matched early. -/
theorem c1_extract_chunk_split_divergence :
    x_run (extract_allowed (.strs ["json".toList])) ["```jsonx\nSECRET\n```\n".toList]
        = []
      ∧ x_run (extract_allowed (.strs ["json".toList]))
          ["```json".toList, "x\nSECRET\n```\n".toList]
        = "x\nSECRET\n".toList := by
  decide

/-- C2: with the Remove policy (character-level filter) and language
predicate `{"json"}`, feeding the single chunk
`"before\n```json\n{\"a\":1}\n```\nafter\n"` returns exactly
`"before\nafter\n"`, and a subsequent `finalize()` (modelled from the
spec's flush policy) returns the empty string. -/
theorem c2_remove_json_single_chunk :
    (rm_filter_chunk (remove_targets (.strs ["json".toList])) rm_fresh
        "before\n```json\n\x7b\"a\":1\x7d\n```\nafter\n".toList).1
        = "before\nafter\n".toList
      ∧ rm_finalize (rm_filter_chunk (remove_targets (.strs ["json".toList])) rm_fresh
          "before\n```json\n\x7b\"a\":1\x7d\n```\nafter\n".toList).2
        = [] := by
  decide

/-- C3: with the Extract policy and language predicate `{"json"}`, feeding
the single chunk `"before\n```json\n{\"a\":1}\n```\nafter\n"` returns exactly
`"{\"a\":1}\n"`, and a subsequent `finalize()` returns the empty string. -/
theorem c3_extract_json_single_chunk :
    (x_filter_chunk (extract_allowed (.strs ["json".toList]))
        ⟨[], false⟩ "before\n```json\n\x7b\"a\":1\x7d\n```\nafter\n".toList).1
        = "\x7b\"a\":1\x7d\n".toList
      ∧ (x_finalize (x_filter_chunk (extract_allowed (.strs ["json".toList]))
          ⟨[], false⟩ "before\n```json\n\x7b\"a\":1\x7d\n```\nafter\n".toList).2).1
        = [] := by
  decide

/-- C4: in the character-level filter, a backtick run strictly shorter than
`active_delimiter_len` followed by any non-backtick character never closes
the block: it is ordinary in-block content (emitted iff the block is
unmatched) and the state returns to INSIDE with the per-block data
unchanged.  In particular a stream opening a block with 4 backticks and
attempting to close with 3 ends with the block still open (state INSIDE). -/
theorem c4_short_close_run_ignored (tg : Option (List (List Char))) (d k : Nat)
    (r : Bool) (c : Char) (h1 : 1 ≤ k) (h2 : k < d) (h3 : c ≠ tick) :
    rm_filter_chunk tg ⟨.INSIDE, [], d, r⟩ (List.replicate k tick ++ [c])
        = ((if r then [] else List.replicate k tick ++ [c]), ⟨.INSIDE, [], d, r⟩)
      ∧ (rm_feed_all (remove_targets (.str "*".toList))
          ["````json\nAB\n```\nCD".toList]).2.state = .INSIDE := by
  refine ⟨?_, by decide⟩
  rw [rm_filter_chunk_append tg (List.replicate k tick) [c], inside_ticks tg d r k h1]
  have hlen : ¬ (d ≤ k) := by omega
  simp [rm_filter_chunk, rm_step, h3, hlen]

/-- Witness for C4 at `d = 4`, `k = 3`, `r = false`, `c = 'x'`. -/
theorem c4_witness :
    (1 ≤ 3 ∧ 3 < 4 ∧ ('x' : Char) ≠ tick)
      ∧ (rm_filter_chunk none ⟨.INSIDE, [], 4, false⟩ (List.replicate 3 tick ++ ['x'])
          = (List.replicate 3 tick ++ ['x'], ⟨.INSIDE, [], 4, false⟩)
        ∧ (rm_feed_all (remove_targets (.str "*".toList))
            ["````json\nAB\n```\nCD".toList]).2.state = .INSIDE) :=
  ⟨⟨by decide, by decide, by decide⟩,
   c4_short_close_run_ignored none 4 3 false 'x' (by decide) (by decide) (by decide)⟩

/-- C5: from inside a block, a candidate closing run of `k ≥
active_delimiter_len` backticks is confirmed as a close when followed by
zero or more spaces/tabs and then a newline (the run, the whitespace and the
newline are emitted iff the block is unmatched, and the state returns to
OUTSIDE with the per-block data cleared); any other trailing character
rejects the close, the consumed backticks, whitespace and that character
become ordinary in-block content, and the state returns to INSIDE with the
per-block data unchanged. -/
theorem c5_close_confirmation (tg : Option (List (List Char))) (d k : Nat)
    (r : Bool) (ws : List Char) (c : Char) (h1 : 1 ≤ k) (h2 : d ≤ k)
    (hws : ws.all (fun w => w == ' ' || w == '\t') = true) :
    rm_filter_chunk tg ⟨.INSIDE, [], d, r⟩ (List.replicate k tick ++ ws ++ ['\n'])
        = ((if r then [] else List.replicate k tick ++ ws ++ ['\n']),
           ⟨.OUTSIDE, [], 0, false⟩)
      ∧ (c ≠ '\n' → c ≠ ' ' → c ≠ '\t' → c ≠ tick →
        rm_filter_chunk tg ⟨.INSIDE, [], d, r⟩ (List.replicate k tick ++ ws ++ [c])
          = ((if r then [] else List.replicate k tick ++ ws ++ [c]),
             ⟨.INSIDE, [], d, r⟩)) := by
  have hB : d ≤ (List.replicate k tick).length := by simpa using h2
  constructor
  · rw [List.append_assoc, rm_filter_chunk_append tg (List.replicate k tick) (ws ++ ['\n']),
      inside_ticks tg d r k h1, icts_close_confirm tg (List.replicate k tick) ws d r hB hws]
    simp [List.append_assoc]
  · intro hc1 hc2 hc3 hc4
    rw [List.append_assoc, rm_filter_chunk_append tg (List.replicate k tick) (ws ++ [c]),
      inside_ticks tg d r k h1,
      icts_close_reject tg (List.replicate k tick) ws d r c hB hws hc1 hc2 hc3 hc4]
    simp [List.append_assoc]

/-- Witness for C5 at `d = 3`, `k = 3`, `r = false`, `ws = [' ']`, both for
the confirming terminator and for the rejecting character `'x'`. -/
theorem c5_witness :
    (1 ≤ 3 ∧ 3 ≤ 3 ∧ ([' '].all (fun w => w == ' ' || w == '\t') = true))
      ∧ rm_filter_chunk none ⟨.INSIDE, [], 3, false⟩
          (List.replicate 3 tick ++ [' '] ++ ['\n'])
          = (List.replicate 3 tick ++ [' '] ++ ['\n'], ⟨.OUTSIDE, [], 0, false⟩)
      ∧ rm_filter_chunk none ⟨.INSIDE, [], 3, false⟩
          (List.replicate 3 tick ++ [' '] ++ ['x'])
          = (List.replicate 3 tick ++ [' '] ++ ['x'], ⟨.INSIDE, [], 3, false⟩) :=
  ⟨⟨by decide, by decide, by decide⟩,
   (c5_close_confirmation none 3 3 false [' '] 'x' (by decide) (by decide) (by decide)).1,
   (c5_close_confirmation none 3 3 false [' '] 'x' (by decide) (by decide) (by decide)).2
     (by decide) (by decide) (by decide) (by decide)⟩

/-- C6 (counterexample): language matching is not case-insensitive in
`StreamingExtractCodeBlockFilter`: with the predicate `"json"`, a block
tagged `JSON` is not matched by `_match_start`, and the whole stream
(feed plus finalize) emits nothing instead of the block's content. -/
theorem c6_extract_case_sensitive :
    match_start (extract_allowed (.str "json".toList)) "```JSON\nX\n```\n".toList = none
      ∧ x_run (extract_allowed (.str "json".toList)) ["```JSON\nX\n```\n".toList]
        = [] := by
  decide

/-- C6 (amended): in the character-level Remove filter, `_check_lang` is
case-insensitive for every predicate form — a single-string predicate
matches exactly the tags with the same lower-casing, a collection predicate
matches exactly the tags whose lower-casing is the lower-casing of a member,
and the `"*"` predicate matches every tag.  (The Extract filter of
`report.py` instead compares the trimmed tag case-sensitively, as the
counterexample shows.) -/
theorem c6_remove_matching_case_insensitive (t s : List Char)
    (ls : List (List Char)) (h1 : s ≠ "*".toList) (h2 : s ≠ []) (h3 : ls ≠ []) :
    (check_lang (remove_targets (.str s)) t = true ↔ lowerL t = lowerL s)
      ∧ (check_lang (remove_targets (.strs ls)) t = true ↔ lowerL t ∈ ls.map lowerL)
      ∧ check_lang (remove_targets (.str "*".toList)) t = true := by
  have hne : ¬ (s = "*".toList ∨ s = []) := by
    intro hor
    rcases hor with hx | hx
    · exact h1 hx
    · exact h2 hx
  refine ⟨?_, ?_, ?_⟩
  · have hts : remove_targets (.str s) = some [lowerL s] := by
      simp only [remove_targets, remove_init, if_neg hne]
    rw [hts]
    simp [check_lang]
  · have h3' : ¬ ls.isEmpty := by simpa using h3
    simp [check_lang, remove_targets, remove_init, h3']
  · simp [check_lang, remove_targets, remove_init]

/-- Witness for C6 (amended) at tag `JSON` against predicates `"json"`,
`["json", "yaml"]` and `"*"`. -/
theorem c6_witness :
    ("json".toList ≠ "*".toList ∧ "json".toList ≠ ([] : List Char)
        ∧ (["json".toList, "yaml".toList] : List (List Char)) ≠ [])
      ∧ (check_lang (remove_targets (.str "json".toList)) "JSON".toList = true ↔
          lowerL "JSON".toList = lowerL "json".toList)
      ∧ (check_lang (remove_targets (.strs ["json".toList, "yaml".toList]))
            "JSON".toList = true ↔
          lowerL "JSON".toList ∈ (["json".toList, "yaml".toList].map lowerL))
      ∧ check_lang (remove_targets (.str "*".toList)) "JSON".toList = true :=
  ⟨⟨by decide, by decide, by decide⟩,
   (c6_remove_matching_case_insensitive "JSON".toList "json".toList
      ["json".toList, "yaml".toList] (by decide) (by decide) (by decide)).1,
   (c6_remove_matching_case_insensitive "JSON".toList "json".toList
      ["json".toList, "yaml".toList] (by decide) (by decide) (by decide)).2.1,
   (c6_remove_matching_case_insensitive "JSON".toList "json".toList
      ["json".toList, "yaml".toList] (by decide) (by decide) (by decide)).2.2⟩

/-- C7 (counterexample): the character-level filter's construction does not
report an error on an invalid predicate argument: a value that is neither a
string nor an iterable of strings falls through every `isinstance` branch
and silently yields the match-all configuration. -/
theorem c7_invalid_lang_accepted :
    remove_init LangArg.other = Except.ok none := rfl

/-- Whether construction succeeded. -/
def initOk {α : Type} : Except String α → Bool
  | .ok _ => true
  | .error _ => false

/-- C7 (amended): `feed` never fails for any configuration, state and chunk
(both filters are total functions); the character-level Remove filter's
construction never fails either — an invalid predicate argument silently
yields the match-all configuration — and only the Extract filter's
construction fails, exactly on an argument that is neither a string nor a
finite iterable of strings. -/
theorem c7_totality_and_construction :
    (∀ a : LangArg, initOk (remove_init a) = true)
      ∧ (∀ a : LangArg, (initOk (extract_init a) = true ↔ a ≠ LangArg.other))
      ∧ (∀ (tg : Option (List (List Char))) (st : RMState) (ch : List Char),
          ∃ o st2, rm_filter_chunk tg st ch = (o, st2))
      ∧ (∀ (al : Option (List (List Char))) (st : XState) (ch : List Char),
          ∃ o st2, x_filter_chunk al st ch = (o, st2)) := by
  refine ⟨?_, ?_, ?_, ?_⟩
  · intro a
    cases a <;> simp only [remove_init] <;> (try split) <;> simp [initOk]
  · intro a
    cases a <;> simp only [extract_init] <;> (try split) <;> simp [initOk]
  · exact fun tg st ch => ⟨_, _, rfl⟩
  · exact fun al st ch => ⟨_, _, rfl⟩

/-- C8: end-of-stream flush policy of the `report.py` filters: `finalize`
returns the buffered content exactly when the filter is not currently
suppressing — for the Remove filter, when not inside a matched block; for
the Extract filter, when inside a matched block — and the empty string
otherwise. -/
theorem c8_finalize_flush_policy (b : List Char) (ic : Bool) :
    (mr_finalize ⟨b, ic⟩).1 = (if ic then [] else b)
      ∧ (x_finalize ⟨b, ic⟩).1 = (if ic then b else []) := by
  cases ic <;> simp [mr_finalize, x_finalize]

/-- C9: for every text with no run of three or more consecutive backticks,
the character-level filter with the match-all Remove configuration passes
the text through unchanged: the output of `feed` followed by `finalize`
(modelled from the spec's flush policy) is the input itself. -/
theorem c9_no_fence_passthrough (s : List Char) (h : hasTripleTick s = false) :
    (rm_filter_chunk (remove_targets (.str "*".toList)) rm_fresh s).1
        ++ rm_finalize (rm_filter_chunk (remove_targets (.str "*".toList)) rm_fresh s).2
      = s := by
  obtain ⟨e1, einv⟩ := c9_aux (remove_targets (.str "*".toList)) s rm_fresh
    ⟨rfl, Or.inl ⟨rfl, rfl⟩⟩ (by simpa using h)
  obtain ⟨hsr, _⟩ := einv
  have hf : rm_finalize (rm_filter_chunk (remove_targets (.str "*".toList)) rm_fresh s).2
      = (rm_filter_chunk (remove_targets (.str "*".toList)) rm_fresh s).2.buffer := by
    rw [rm_finalize, hsr]
    simp
  rw [hf]
  simpa using e1

/-- Witness for C9 at the input `"a``b`"`, which ends in a pending
one-backtick run that `finalize` flushes. -/
theorem c9_witness :
    hasTripleTick "a``b`".toList = false
      ∧ (rm_filter_chunk (remove_targets (.str "*".toList)) rm_fresh "a``b`".toList).1
          ++ rm_finalize
            (rm_filter_chunk (remove_targets (.str "*".toList)) rm_fresh "a``b`".toList).2
        = "a``b`".toList :=
  ⟨by decide, c9_no_fence_passthrough "a``b`".toList (by decide)⟩

/-- C10: after any sequence of completed `filter_chunk` calls on a fresh
character-level filter, whenever the state is OUTSIDE the buffer is empty,
the active delimiter length is zero and `should_remove` is false — no stale
per-block data survives outside a block. -/
theorem c10_outside_state_clean (tg : Option (List (List Char)))
    (chunks : List (List Char)) (h : (rm_run_chunks tg chunks).state = .OUTSIDE) :
    (rm_run_chunks tg chunks).buffer = []
      ∧ (rm_run_chunks tg chunks).active_delimiter_len = 0
      ∧ (rm_run_chunks tg chunks).should_remove = false :=
  (rm_run_c10 tg chunks).1 h

/-- Witness for C10 on a two-chunk run that closes a matched block and ends
outside it. -/
theorem c10_witness :
    (rm_run_chunks none ["a```json\nX".toList, "\n```\nb".toList]).state = .OUTSIDE
      ∧ ((rm_run_chunks none ["a```json\nX".toList, "\n```\nb".toList]).buffer = []
        ∧ (rm_run_chunks none ["a```json\nX".toList, "\n```\nb".toList]).active_delimiter_len = 0
        ∧ (rm_run_chunks none ["a```json\nX".toList, "\n```\nb".toList]).should_remove = false) :=
  ⟨by decide, c10_outside_state_clean none ["a```json\nX".toList, "\n```\nb".toList] (by decide)⟩
